import Mathlib

/-!
Shallow embedding of the protego validation engine
(package `validation` of quantumcycle/protego) in Lean 4.

Go `error` values are embedded as `Option GoError` (`none` = nil).
A Go validator `Validator[T] = func(T) error` becomes
`Validator T = T → Option GoError`.

The implementation file for the error model (`NewValidationError`,
`WrapError`, `IsValidationError`, type `Error`) is not present in the
repository sources; only its tests (`validation/error_test.go`), its
callers and the README describe it.  Those definitions are therefore
modelled from the spec (see the doc comments marked
`Modelled from the spec:`); everything else is translated directly from
the Go sources.
-/

namespace Protego

/-- Embedding of Go `error` values produced by this code base:
`plain` is an `errors.New` / `fmt.Errorf`-without-`%w` error carrying only
a message; `wrapf` is a `fmt.Errorf("...: %w", err)` error, carrying the
full formatted message and the single wrapped cause; `joined` is an
`errors.Join` composite over a non-empty list of errors; `validationErr`
is the package's own `validation.Error`.

Modelled from the spec: `validation.Error` (file `error.go`, absent from
the sources) is, per spec §4.1 and the Data Model, "a tagged error value
carrying a human-readable message and, optionally, a wrapped cause
error". -/
inductive GoError : Type where
  | plain (msg : String)
  | wrapf (msg : String) (cause : GoError)
  | joined (errs : List GoError)
  | validationErr (msg : String) (cause : Option GoError)

/-- The `Error()` string of an embedded Go error.  For `wrapf` the full
formatted message is stored at construction time; `errors.Join`
concatenates the constituent messages with a newline. -/
def GoError.message : GoError → String
  | .plain m => m
  | .wrapf m _ => m
  | .joined es => String.intercalate "\n" (es.attach.map (fun e => e.1.message))
  | .validationErr m _ => m
termination_by e => sizeOf e
decreasing_by
  all_goals simp_wf
  all_goals try have h := List.sizeOf_lt_of_mem e.2
  all_goals omega

/-- Go `errors.Unwrap`: `fmt.Errorf`-with-`%w` errors and `validation.Error`
expose a single cause; `errors.Join` composites expose `Unwrap() []error`,
not `Unwrap() error`, so `errors.Unwrap` yields nil on them, as it does on
plain errors. -/
def GoError.unwrap : GoError → Option GoError
  | .wrapf _ c => some c
  | .validationErr _ c => c
  | .plain _ => none
  | .joined _ => none

/-- Modelled from the spec: `isValidationError` (file `error.go`, absent
from the sources) is per spec §4.1 "false for nil; true for any error
constructed or wrapped by this model, including ones reachable through a
cause chain produced by this model's own joins", and per the tests is
`errors.Is(err, &validation.Error{})`: the standard walk through `%w`
wrap chains and `errors.Join` children, matching any `validation.Error`. -/
def GoError.isValidation : GoError → Bool
  | .plain _ => false
  | .wrapf _ c => c.isValidation
  | .joined es => es.attach.any (fun e => e.1.isValidation)
  | .validationErr _ _ => true
termination_by e => sizeOf e
decreasing_by
  all_goals simp_wf
  all_goals try have h := List.sizeOf_lt_of_mem e.2
  all_goals omega

/-- `IsValidationError` lifted to nullable Go errors: false for nil.
Modelled from the spec (file `error.go` absent from the sources). -/
def IsValidationError : Option GoError → Bool
  | none => false
  | some e => e.isValidation

/-- Modelled from the spec: `NewValidationError` (file `error.go`, absent
from the sources) — spec §4.1 `newError(message)` "always produces a
validation error"; per the tests its message is the given message and it
is a leaf (`errors.Unwrap` of it is nil). -/
def NewValidationError (msg : String) : GoError :=
  .validationErr msg none

/-- Modelled from the spec: `WrapError` (file `error.go`, absent from the
sources) — spec §4.1 `wrap(err)`: "if `err` is nil, returns nil; if `err`
already is a validation error, returns it unchanged; otherwise wraps it,
preserving `err.Message()` as the outer message and retaining `err` as
the unwrap target". -/
def WrapError : Option GoError → Option GoError
  | none => none
  | some e => if e.isValidation then some e else some (.validationErr e.message (some e))

/-- Go `errors.Join(errs...)`: nil when the list is empty, otherwise a
composite holding every (non-nil) argument.  In the call sites embedded
here the argument list never contains nil entries. -/
def errorsJoin (errs : List GoError) : Option GoError :=
  match errs with
  | [] => none
  | _ => some (.joined errs)

/-- `fmt.Errorf(pre ++ "%w", err)` applied to a possibly-nil error: with a
non-nil operand it produces a wrapping error whose message appends the
operand's message; with a nil operand Go's `fmt` does not wrap and prints
the `%!w(<nil>)` placeholder instead. -/
def fmtErrorfW (pre : String) : Option GoError → GoError
  | some e => .wrapf (pre ++ e.message) e
  | none => .plain (pre ++ "%!w(<nil>)")

/-- The unwrap chain of an error: the error itself followed by everything
reachable through repeated `errors.Unwrap`. -/
def GoError.unwrapChain : GoError → List GoError
  | .wrapf m c => .wrapf m c :: c.unwrapChain
  | .validationErr m (some c) => .validationErr m (some c) :: c.unwrapChain
  | e => [e]

@[simp]
theorem GoError.message_plain (m : String) : (GoError.plain m).message = m := by
  simp [GoError.message]

@[simp]
theorem GoError.message_wrapf (m : String) (c : GoError) :
    (GoError.wrapf m c).message = m := by
  simp [GoError.message]

@[simp]
theorem GoError.message_validationErr (m : String) (c : Option GoError) :
    (GoError.validationErr m c).message = m := by
  simp [GoError.message]

@[simp]
theorem GoError.message_joined (es : List GoError) :
    (GoError.joined es).message =
      String.intercalate "\n" (es.map GoError.message) := by
  rw [GoError.message]
  rw [List.attach_map_val es GoError.message]

@[simp]
theorem GoError.isValidation_plain (m : String) :
    (GoError.plain m).isValidation = false := by
  simp [GoError.isValidation]

@[simp]
theorem GoError.isValidation_wrapf (m : String) (c : GoError) :
    (GoError.wrapf m c).isValidation = c.isValidation := by
  simp [GoError.isValidation]

@[simp]
theorem GoError.isValidation_validationErr (m : String) (c : Option GoError) :
    (GoError.validationErr m c).isValidation = true := by
  simp [GoError.isValidation]

@[simp]
theorem GoError.isValidation_joined (es : List GoError) :
    (GoError.joined es).isValidation = es.any GoError.isValidation := by
  rw [GoError.isValidation]
  rw [List.any_eq, List.any_eq]
  simp

/-- `Validator[T]`: a Go validator is a function from a value to a
nullable error (source `validation.go`). -/
def Validator (T : Type) : Type := T → Option GoError

/-- `Validate` (source `validation.go`): applies the validators in order
and returns the first error encountered; nil when all pass. -/
def Validate {T : Type} (value : T) : List (Validator T) → Option GoError
  | [] => none
  | validator :: rest =>
    match validator value with
    | some err => some err
    | none => Validate value rest

/-- `WithMessage` (source `helpers.go`): delegates to the wrapped
validator; on any failure it returns a fresh `NewValidationError` carrying
only the custom message. -/
def WithMessage {T : Type} (validator : Validator T) (message : String) :
    Validator T := fun v =>
  match validator v with
  | some _ => some (NewValidationError message)
  | none => none

/-- The epilogue of `Or` (source `helpers.go`): a single collected error
is returned verbatim; otherwise
`WrapError(fmt.Errorf("all validators failed: %w", errors.Join(errs...)))`. -/
def orFinish (errs : List GoError) : Option GoError :=
  match errs with
  | [e] => some e
  | _ => WrapError (some (fmtErrorfW "all validators failed: " (errorsJoin errs)))

/-- The accumulation loop of `Or` (source `helpers.go`): on the first
validator that passes, return nil; otherwise collect every error in input
order and hand the list to `orFinish`. -/
def orGo {T : Type} (x : T) : List (Validator T) → List GoError → Option GoError
  | [], errs => orFinish errs
  | validator :: rest, errs =>
    match validator x with
    | none => none
    | some err => orGo x rest (errs ++ [err])

/-- `Or` (source `helpers.go`): succeeds at the first passing validator,
otherwise aggregates the failures via `orFinish`. -/
def Or {T : Type} (validators : List (Validator T)) : Validator T := fun v =>
  orGo v validators []

/-- `Not` (source `helpers.go`): passes when the wrapped validator fails,
and fails with a generic message when it passes. -/
def Not {T : Type} (validator : Validator T) : Validator T := fun v =>
  match validator v with
  | some _ => none
  | none => some (NewValidationError "validation should have failed but passed")

/-- The collection loop of `Each` (source `collection.go`): apply the
element validator to every element, wrapping each failure as
`fmt.Errorf("index %d: %w", i, err)`, `i` the zero-based index. -/
def eachErrs {T : Type} (elementValidator : Validator T) (i : Nat) :
    List T → List GoError
  | [] => []
  | v :: rest =>
    match elementValidator v with
    | some err =>
      .wrapf ("index " ++ toString i ++ ": " ++ err.message) err
        :: eachErrs elementValidator (i + 1) rest
    | none => eachErrs elementValidator (i + 1) rest

/-- `Each` (source `collection.go`): validates every element of a slice
and joins all failures with `errors.Join`. -/
def Each {T : Type} (elementValidator : Validator T) : Validator (List T) :=
  fun values => errorsJoin (eachErrs elementValidator 0 values)

/-- `MapKeyRule` (source `collection.go`): a key name, a required flag and
the validators for the key's value. -/
structure MapKeyRule (V : Type) where
  key : String
  required : Bool
  validators : List (Validator V)

/-- `MapKey` (source `collection.go`): constructs a `MapKeyRule`. -/
def MapKey {V : Type} (key : String) (required : Bool)
    (validators : List (Validator V)) : MapKeyRule V :=
  ⟨key, required, validators⟩

/-- A Go `map[string]V`, embedded as its entry list; iteration follows the
list order (Go's map iteration order is unspecified, so theorems below
only rely on which keys are present, except for naming which uncovered
key an extra-keys failure reports). -/
abbrev GoMap (V : Type) : Type := List (String × V)

/-- Go map indexing `m[k]`: the value stored at `k`, if present. -/
def mapLookup {V : Type} : GoMap V → String → Option V
  | [], _ => none
  | (k', v) :: rest, k => if k' = k then some v else mapLookup rest k

/-- Go's `%q` verb applied to a map key: the key in double quotes (keys
containing characters that `%q` would escape are not used by any theorem
below). -/
def goQuote (s : String) : String := "\"" ++ s ++ "\""

/-- The inner loop shared by `ValidateStringMap` and `ValidateAnyMap`
(source `collection.go`): run a rule's validators on the key's value in
order and wrap the first failure as `fmt.Errorf("key %q: %w", key, err)`. -/
def runRuleValidators {V : Type} (key : String) (value : V) :
    List (Validator V) → Option GoError
  | [] => none
  | validator :: rest =>
    match validator value with
    | some err =>
      some (.wrapf ("key " ++ goQuote key ++ ": " ++ err.message) err)
    | none => runRuleValidators key value rest

/-- The rule loop shared by `ValidateStringMap` and `ValidateAnyMap`
(source `collection.go`): for each rule in order, fail with
`fmt.Errorf("key %q is required", key)` when a required key is absent,
and otherwise run the rule's validators on the present value,
short-circuiting on the first failing rule. -/
def runMapRules {V : Type} (m : GoMap V) : List (MapKeyRule V) → Option GoError
  | [] => none
  | rule :: rest =>
    match mapLookup m rule.key with
    | none =>
      if rule.required then
        some (.plain ("key " ++ goQuote rule.key ++ " is required"))
      else runMapRules m rest
    | some value =>
      match runRuleValidators rule.key value rule.validators with
      | some err => some err
      | none => runMapRules m rest

/-- The extra-keys scan shared by `ValidateStringMap` and `ValidateAnyMap`
(source `collection.go`): fail with `fmt.Errorf("key %q not expected", k)`
on the first map key not covered by any rule. -/
def scanExtraKeys {V : Type} (ruleKeys : List String) :
    GoMap V → Option GoError
  | [] => none
  | (k, _) :: rest =>
    if ruleKeys.contains k then scanExtraKeys ruleKeys rest
    else some (.plain ("key " ++ goQuote k ++ " not expected"))

/-- The common body of `ValidateStringMap` and `ValidateAnyMap` (source
`collection.go`, where the two functions are textually identical up to
the value type): run the rules, then, when extra keys are disallowed,
scan for a key no rule covers. -/
def validateMapGo {V : Type} (m : GoMap V) (allowExtra : Bool)
    (rules : List (MapKeyRule V)) : Option GoError :=
  match runMapRules m rules with
  | some err => some err
  | none =>
    if allowExtra then none
    else scanExtraKeys (rules.map MapKeyRule.key) m

/-- A dynamically-typed Go value (`any`), restricted to the runtime types
the shims in `collection.go` inspect: strings, `int`, `int64`, `float64`,
`float32`, `bool`, the nil interface value, and a stand-in for every other
runtime type.  Floating-point payloads are embedded as rationals (all
values decoded from JSON are representable; floating-point rounding is
outside the claims proved here). -/
inductive GoVal : Type where
  | vString (s : String)
  | vInt (n : Int)
  | vInt64 (n : Int)
  | vFloat64 (q : Rat)
  | vFloat32 (q : Rat)
  | vBool (b : Bool)
  | vNil
  | vOther
deriving DecidableEq, Repr

/-- Go's conversion `int(f)` for a `float64`: truncation toward zero. -/
def goTrunc (q : Rat) : Int :=
  if q < 0 then -Rat.floor (-q) else Rat.floor q

/-- `ValidateStringMap` (source `collection.go`): the keyed-map validator
over `map[string]string`. -/
def ValidateStringMap (m : GoMap String) (allowExtra : Bool)
    (rules : List (MapKeyRule String)) : Option GoError :=
  validateMapGo m allowExtra rules

/-- `ValidateAnyMap` (source `collection.go`): the keyed-map validator
over `map[string]any`; its body is textually identical to
`ValidateStringMap`. -/
def ValidateAnyMap (m : GoMap GoVal) (allowExtra : Bool)
    (rules : List (MapKeyRule GoVal)) : Option GoError :=
  validateMapGo m allowExtra rules

/-- `StringValidator` (source `collection.go`): type-asserts the dynamic
value to `string` and delegates; otherwise fails with "must be a string". -/
def StringValidator (validator : Validator String) : Validator GoVal := fun v =>
  match v with
  | .vString str => validator str
  | _ => some (.plain "must be a string")

/-- `IntValidator` (source `collection.go`): switches on the dynamic
value's runtime type — `int` delegates directly, `float64` delegates after
`int(val)` truncation, `int64` delegates after `int(val)` (lossless on
64-bit targets); everything else fails with "must be a number". -/
def IntValidator (validator : Validator Int) : Validator GoVal := fun v =>
  match v with
  | .vInt val => validator val
  | .vFloat64 val => validator (goTrunc val)
  | .vInt64 val => validator val
  | _ => some (.plain "must be a number")

/-- `FloatValidator` (source `collection.go`): switches on the dynamic
value's runtime type — `float64` delegates directly, `float32`, `int` and
`int64` delegate after conversion to `float64`; everything else fails
with "must be a number". -/
def FloatValidator (validator : Validator Rat) : Validator GoVal := fun v =>
  match v with
  | .vFloat64 val => validator val
  | .vFloat32 val => validator val
  | .vInt val => validator (val : Rat)
  | .vInt64 val => validator (val : Rat)
  | _ => some (.plain "must be a number")

/-- `BoolValidator` (source `collection.go`): type-asserts the dynamic
value to `bool` and delegates; otherwise fails with "must be a boolean". -/
def BoolValidator (validator : Validator Bool) : Validator GoVal := fun v =>
  match v with
  | .vBool val => validator val
  | _ => some (.plain "must be a boolean")

/-! ### General lemmas about the sequential runner -/

theorem validate_append_passing {T : Type} (x : T) (l1 l2 : List (Validator T))
    (h : ∀ u ∈ l1, u x = none) :
    Validate x (l1 ++ l2) = Validate x l2 := by
  induction l1 with
  | nil => rfl
  | cons u l1 ih =>
    have hu : u x = none := h u (List.mem_cons_self u l1)
    simp only [List.cons_append, Validate, hu]
    exact ih (fun w hw => h w (List.mem_cons_of_mem u hw))

theorem validate_none_iff {T : Type} (x : T) (l : List (Validator T)) :
    Validate x l = none ↔ ∀ v ∈ l, v x = none := by
  induction l with
  | nil => simp [Validate]
  | cons u l ih =>
    cases hux : u x with
    | some e =>
      constructor
      · intro h
        exfalso
        simp only [Validate, hux] at h
        exact Option.noConfusion h
      · intro h
        exfalso
        have hu := h u (List.mem_cons_self u l)
        rw [hux] at hu
        exact Option.noConfusion hu
    | none =>
      constructor
      · intro h v hv
        rcases List.mem_cons.mp hv with rfl | hv'
        · exact hux
        · refine ih.mp ?_ v hv'
          simpa only [Validate, hux] using h
      · intro h
        simp only [Validate, hux]
        exact ih.mpr (fun v hv => h v (List.mem_cons_of_mem u hv))

/-- Claim C1: the sequential runner `Validate` applies the validators in
the given order; when every validator of a prefix `l1` passes and the
next validator `v` fails with `e`, the run returns `e` — for every
suffix `l2`, so no later validator can influence (and in particular need
be invoked for) the result; and the run returns nil iff every validator
passes. -/
theorem validate_first_failure {T : Type} (x : T) :
    (∀ (l1 l2 : List (Validator T)) (v : Validator T) (e : GoError),
        (∀ u ∈ l1, u x = none) → v x = some e →
        Validate x (l1 ++ v :: l2) = some e)
    ∧ ∀ l : List (Validator T), (Validate x l = none ↔ ∀ v ∈ l, v x = none) := by
  constructor
  · intro l1 l2 v e h1 hv
    rw [validate_append_passing x l1 (v :: l2) h1]
    simp only [Validate, hv]
  · exact validate_none_iff x

/-- Concrete instance of claim C1: with a passing first validator, a
second validator failing with message "e1" and a third failing with
"e2", the runner returns the "e1" failure; and a run of two passing
validators returns nil. -/
theorem validate_first_failure_witness :
    Validate (0 : Nat)
        ([fun _ => none] ++
          (fun _ => some (GoError.plain "e1")) :: [fun _ => some (GoError.plain "e2")]) =
      some (GoError.plain "e1")
    ∧ Validate (0 : Nat) [fun _ => none, fun _ => none] = none := by
  constructor
  · exact (validate_first_failure (0 : Nat)).1 _ _ _ _
      (by intro u hu; rw [List.mem_singleton] at hu; subst hu; rfl) rfl
  · exact ((validate_first_failure (0 : Nat)).2 _).mpr
      (by
        intro v hv
        rcases List.mem_cons.mp hv with rfl | hv
        · rfl
        · rw [List.mem_singleton] at hv; subst hv; rfl)

/-! ### Lemmas about `Or` -/

theorem self_mem_unwrapChain (e : GoError) : e ∈ e.unwrapChain := by
  cases e with
  | plain m => simp [GoError.unwrapChain]
  | wrapf m c => simp [GoError.unwrapChain]
  | joined es => simp [GoError.unwrapChain]
  | validationErr m c =>
    cases c with
    | none => simp [GoError.unwrapChain]
    | some c => simp [GoError.unwrapChain]

theorem orGo_all_fail {T : Type} (x : T) {vs : List (Validator T)}
    {es : List GoError}
    (h : List.Forall₂ (fun (v : Validator T) (e : GoError) => v x = some e) vs es) :
    ∀ acc : List GoError, orGo x vs acc = orFinish (acc ++ es) := by
  induction h with
  | nil => intro acc; simp [orGo]
  | @cons v e vs' es' hve _ ih =>
    intro acc
    simp only [orGo, hve, ih (acc ++ [e]), List.append_assoc, List.singleton_append]

theorem orGo_first_pass {T : Type} (x : T) (l1 : List (Validator T))
    (hf : ∀ u ∈ l1, ∃ e, u x = some e) (v : Validator T) (hv : v x = none)
    (l2 : List (Validator T)) :
    ∀ acc : List GoError, orGo x (l1 ++ v :: l2) acc = none := by
  induction l1 with
  | nil => intro acc; simp [orGo, hv]
  | cons u l1 ih =>
    intro acc
    obtain ⟨e, he⟩ := hf u (List.mem_cons_self u l1)
    simp only [List.cons_append, orGo, he]
    exact ih (fun w hw => hf w (List.mem_cons_of_mem u hw)) (acc ++ [e])

/-- Claim C8: `Or` with zero validators fails for every input (its error
is the wrapped `fmt` error produced by `%w` applied to the nil result of
joining zero errors). -/
theorem or_empty_fails {T : Type} (x : T) :
    Or ([] : List (Validator T)) x =
      some (GoError.validationErr "all validators failed: %!w(<nil>)"
        (some (GoError.plain "all validators failed: %!w(<nil>)"))) := by
  simp [Or, orGo, orFinish, errorsJoin, fmtErrorfW, WrapError]

/-- Claim C2: `Or` returns a single failing validator's error verbatim;
returns nil at the first passing validator whatever comes after it; and
when two or more validators all fail it returns a composite error whose
message is "all validators failed: " followed by the join of the
individual failures (in input order) and whose unwrap chain contains that
join. -/
theorem or_semantics {T : Type} (x : T) :
    (∀ (v : Validator T) (e : GoError), v x = some e → Or [v] x = some e)
    ∧ (∀ (l1 l2 : List (Validator T)) (v : Validator T),
        (∀ u ∈ l1, ∃ e, u x = some e) → v x = none →
        Or (l1 ++ v :: l2) x = none)
    ∧ (∀ (vs : List (Validator T)) (es : List GoError),
        List.Forall₂ (fun (v : Validator T) (e : GoError) => v x = some e) vs es →
        2 ≤ vs.length →
        ∃ r, Or vs x = some r
          ∧ r.message = "all validators failed: " ++ (GoError.joined es).message
          ∧ GoError.joined es ∈ r.unwrapChain) := by
  refine ⟨?_, ?_, ?_⟩
  · intro v e hv
    have h := orGo_all_fail x (List.Forall₂.cons hv List.Forall₂.nil) []
    simpa [Or, orFinish] using h
  · intro l1 l2 v hf hv
    exact orGo_first_pass x l1 hf v hv l2 []
  · intro vs es hall hlen
    have hlen' : 2 ≤ es.length := by
      rw [← List.Forall₂.length_eq hall]; exact hlen
    obtain ⟨a, b, t, rfl⟩ : ∃ a b t, es = a :: b :: t := by
      cases es with
      | nil => simp at hlen'
      | cons a es' =>
        cases es' with
        | nil => simp at hlen'
        | cons b t => exact ⟨a, b, t, rfl⟩
    have hrun : Or vs x = orFinish (a :: b :: t) := by
      have h := orGo_all_fail x hall []
      simpa [Or] using h
    set j : GoError := GoError.joined (a :: b :: t) with hj
    have hfin : orFinish (a :: b :: t) =
        WrapError (some (GoError.wrapf ("all validators failed: " ++ j.message) j)) := by
      simp [orFinish, errorsJoin, fmtErrorfW, hj]
    set w : GoError := GoError.wrapf ("all validators failed: " ++ j.message) j with hw
    by_cases hval : w.isValidation = true
    · refine ⟨w, ?_, ?_, ?_⟩
      · rw [hrun, hfin]
        simp [WrapError, hval]
      · simp [hw]
      · rw [hw]
        simp only [GoError.unwrapChain]
        exact List.mem_cons_of_mem _ (self_mem_unwrapChain j)
    · refine ⟨GoError.validationErr w.message (some w), ?_, ?_, ?_⟩
      · rw [hrun, hfin]
        simp [WrapError, hval]
      · simp [hw]
      · simp only [GoError.unwrapChain, hw]
        exact List.mem_cons_of_mem _
          (List.mem_cons_of_mem _ (self_mem_unwrapChain j))

/-- Concrete instance of claim C2: a lone failing validator's error comes
back verbatim; a passing validator after a failing one yields nil; and
two failing validators yield a composite whose message is "all
validators failed: a\nb" and whose unwrap chain contains the join of the
two failures. -/
theorem or_semantics_witness :
    Or [fun _ => some (GoError.plain "boom")] (0 : Nat) =
        some (GoError.plain "boom")
    ∧ Or ([fun _ => some (GoError.plain "a")] ++
        (fun _ => none) :: ([] : List (Validator Nat))) 0 = none
    ∧ ∃ r, Or [fun _ => some (GoError.plain "a"),
          fun _ => some (GoError.plain "b")] (0 : Nat) = some r
        ∧ r.message = "all validators failed: " ++
            (GoError.joined [GoError.plain "a", GoError.plain "b"]).message
        ∧ GoError.joined [GoError.plain "a", GoError.plain "b"] ∈ r.unwrapChain := by
  refine ⟨?_, ?_, ?_⟩
  · exact (or_semantics (0 : Nat)).1 _ (GoError.plain "boom") rfl
  · exact (or_semantics (0 : Nat)).2.1 _ _ _
      (by intro u hu; rw [List.mem_singleton] at hu; subst hu
          exact ⟨GoError.plain "a", rfl⟩) rfl
  · exact (or_semantics (0 : Nat)).2.2 _ _
      (List.Forall₂.cons rfl (List.Forall₂.cons rfl List.Forall₂.nil))
      (by simp)

/-- Claim C9: `Not (Not v)` has the same pass/fail outcome as `v` on
every input — it returns nil exactly when `v` does. -/
theorem not_not_outcome {T : Type} (v : Validator T) (x : T) :
    (Not (Not v) x = none ↔ v x = none) := by
  cases hv : v x with
  | none => simp [Not, hv]
  | some e => simp [Not, hv, NewValidationError]

/-- Claim C10: when the wrapped validator fails, `WithMessage` returns a
fresh leaf validation error carrying only the custom message: the
result does not depend on the wrapped validator's error, and its unwrap
chain is just the fresh error itself, so unwrapping never reaches the
original error. -/
theorem withMessage_discards_cause {T : Type} (validator : Validator T)
    (message : String) (x : T) (e : GoError) (h : validator x = some e) :
    WithMessage validator message x = some (GoError.validationErr message none)
    ∧ (GoError.validationErr message none).unwrap = none
    ∧ (GoError.validationErr message none).unwrapChain =
        [GoError.validationErr message none] := by
  refine ⟨?_, rfl, rfl⟩
  simp [WithMessage, h, NewValidationError]

/-- Concrete instance of claim C10: overriding the message of a
validator that failed with "boom" yields the bare validation error
"custom", whose unwrap is nil. -/
theorem withMessage_discards_cause_witness :
    WithMessage (fun _ => some (GoError.plain "boom")) "custom" (0 : Nat) =
        some (GoError.validationErr "custom" none)
    ∧ (GoError.validationErr "custom" none).unwrap = none
    ∧ (GoError.validationErr "custom" none).unwrapChain =
        [GoError.validationErr "custom" none] :=
  withMessage_discards_cause (fun _ => some (GoError.plain "boom")) "custom" 0
    (GoError.plain "boom") rfl

/-- Claim C6: the error-wrapping algebra — `WrapError` of nil is nil;
`WrapError` of a validation error returns it unchanged, so `WrapError` is
idempotent; `WrapError` of any other non-nil error preserves the original
message as the outer message and unwraps back to exactly the original
error; and a leaf validation error unwraps to nil. -/
theorem wrapError_algebra :
    WrapError none = none
    ∧ (∀ e : GoError, e.isValidation = true → WrapError (some e) = some e)
    ∧ (∀ oe : Option GoError, WrapError (WrapError oe) = WrapError oe)
    ∧ (∀ e : GoError, e.isValidation = false →
        WrapError (some e) = some (GoError.validationErr e.message (some e))
        ∧ (GoError.validationErr e.message (some e)).message = e.message
        ∧ (GoError.validationErr e.message (some e)).unwrap = some e)
    ∧ ∀ m : String, (NewValidationError m).unwrap = none := by
  refine ⟨rfl, ?_, ?_, ?_, fun m => rfl⟩
  · intro e he
    simp [WrapError, he]
  · intro oe
    cases oe with
    | none => rfl
    | some e =>
      by_cases he : e.isValidation = true
      · simp [WrapError, he]
      · simp only [Bool.not_eq_true] at he
        simp [WrapError, he]
  · intro e he
    refine ⟨?_, by simp, rfl⟩
    simp [WrapError, he]

/-- Concrete instance of claim C6: wrapping the leaf validation error
"v" leaves it unchanged, and wrapping the foreign error "boom" preserves
the message and unwraps back to it. -/
theorem wrapError_algebra_witness :
    WrapError (some (GoError.validationErr "v" none)) =
        some (GoError.validationErr "v" none)
    ∧ WrapError (some (GoError.plain "boom")) =
        some (GoError.validationErr (GoError.plain "boom").message
          (some (GoError.plain "boom")))
    ∧ (GoError.validationErr (GoError.plain "boom").message
          (some (GoError.plain "boom"))).unwrap = some (GoError.plain "boom") := by
  refine ⟨?_, ?_, ?_⟩
  · exact wrapError_algebra.2.1 (GoError.validationErr "v" none) (by simp)
  · exact (wrapError_algebra.2.2.2.1 (GoError.plain "boom") (by simp)).1
  · exact (wrapError_algebra.2.2.2.1 (GoError.plain "boom") (by simp)).2.2

/-! ### Lemmas about `Each` -/

/-- The failures `Each` collects, written the way the spec words it (for
comparison with the source-translated `eachErrs`): every element is
inspected, and each failure is tagged with its zero-based index. -/
def specEachFailures {T : Type} (elementValidator : Validator T)
    (values : List T) : List GoError :=
  values.enum.filterMap fun p =>
    (elementValidator p.2).map fun e =>
      GoError.wrapf ("index " ++ toString p.1 ++ ": " ++ e.message) e

theorem eachErrs_eq_enumFrom {T : Type} (ev : Validator T) (values : List T) :
    ∀ i : Nat, eachErrs ev i values = (values.enumFrom i).filterMap fun p =>
      (ev p.2).map fun e =>
        GoError.wrapf ("index " ++ toString p.1 ++ ": " ++ e.message) e := by
  induction values with
  | nil => intro i; rfl
  | cons v rest ih =>
    intro i
    simp only [List.enumFrom, List.filterMap_cons, eachErrs]
    cases hv : ev v with
    | some e => simp [hv, ih (i + 1)]
    | none => simp [hv, ih (i + 1)]

theorem eachErrs_nil_iff {T : Type} (ev : Validator T) (values : List T) :
    ∀ i : Nat, (eachErrs ev i values = [] ↔ ∀ v ∈ values, ev v = none) := by
  induction values with
  | nil => intro i; simp [eachErrs]
  | cons v rest ih =>
    intro i
    simp only [eachErrs]
    cases hv : ev v with
    | some e =>
      simp only [List.cons_ne_nil, false_iff]
      intro h
      have := h v (List.mem_cons_self v rest)
      rw [hv] at this
      exact Option.noConfusion this
    | none =>
      rw [ih (i + 1)]
      constructor
      · intro h w hw
        rcases List.mem_cons.mp hw with rfl | hw'
        · exact hv
        · exact h w hw'
      · intro h w hw
        exact h w (List.mem_cons_of_mem v hw)

/-- Claim C4: `Each` inspects every element (its result is the join of
the index-tagged failures of all failing elements, in order — the
spec-side `specEachFailures`), returns nil iff every element passes, and
joining zero failures yields nil. -/
theorem each_semantics {T : Type} (elementValidator : Validator T)
    (values : List T) :
    Each elementValidator values =
        errorsJoin (specEachFailures elementValidator values)
    ∧ (Each elementValidator values = none ↔
        ∀ v ∈ values, elementValidator v = none)
    ∧ errorsJoin ([] : List GoError) = none := by
  refine ⟨?_, ?_, rfl⟩
  · unfold Each specEachFailures
    rw [eachErrs_eq_enumFrom elementValidator values 0, List.enum]
  · unfold Each
    have hjoin : ∀ l : List GoError, (errorsJoin l = none ↔ l = []) := by
      intro l
      cases l with
      | nil => simp [errorsJoin]
      | cons a t =>
        simp only [errorsJoin]
        constructor
        · intro h; exact Option.noConfusion h
        · intro h; exact List.noConfusion h
    rw [hjoin]
    exact eachErrs_nil_iff elementValidator values 0

/-- Claim C5: each type-adaptation shim delegates to the wrapped
validator exactly on the runtime representations its switch narrows
(`string` for `StringValidator`; `int`, `float64` via truncation, and
`int64` for `IntValidator`; `float64`, `float32`, `int` and `int64` for
`FloatValidator`; `bool` for `BoolValidator`), and on nil or any other
representation fails with the message naming the expected kind, with a
result that does not depend on — so never invokes — the wrapped
validator. -/
theorem shim_semantics :
    ((∀ (f : Validator String) (s : String),
        StringValidator f (GoVal.vString s) = f s)
      ∧ ∀ (f : Validator String) (x : GoVal), (∀ s, x ≠ GoVal.vString s) →
          StringValidator f x = some (GoError.plain "must be a string"))
    ∧ ((∀ (f : Validator Int) (n : Int),
          IntValidator f (GoVal.vInt n) = f n ∧ IntValidator f (GoVal.vInt64 n) = f n)
      ∧ (∀ (f : Validator Int) (q : Rat),
          IntValidator f (GoVal.vFloat64 q) = f (goTrunc q))
      ∧ ∀ (f : Validator Int) (x : GoVal),
          (∀ n, x ≠ GoVal.vInt n) → (∀ n, x ≠ GoVal.vInt64 n) →
          (∀ q, x ≠ GoVal.vFloat64 q) →
          IntValidator f x = some (GoError.plain "must be a number"))
    ∧ ((∀ (f : Validator Rat) (q : Rat),
          FloatValidator f (GoVal.vFloat64 q) = f q
            ∧ FloatValidator f (GoVal.vFloat32 q) = f q)
      ∧ (∀ (f : Validator Rat) (n : Int),
          FloatValidator f (GoVal.vInt n) = f (n : Rat)
            ∧ FloatValidator f (GoVal.vInt64 n) = f (n : Rat))
      ∧ ∀ (f : Validator Rat) (x : GoVal),
          (∀ q, x ≠ GoVal.vFloat64 q) → (∀ q, x ≠ GoVal.vFloat32 q) →
          (∀ n, x ≠ GoVal.vInt n) → (∀ n, x ≠ GoVal.vInt64 n) →
          FloatValidator f x = some (GoError.plain "must be a number"))
    ∧ ((∀ (f : Validator Bool) (b : Bool),
          BoolValidator f (GoVal.vBool b) = f b)
      ∧ ∀ (f : Validator Bool) (x : GoVal), (∀ b, x ≠ GoVal.vBool b) →
          BoolValidator f x = some (GoError.plain "must be a boolean")) := by
  refine ⟨⟨fun f s => rfl, ?_⟩, ⟨fun f n => ⟨rfl, rfl⟩, fun f q => rfl, ?_⟩,
    ⟨fun f q => ⟨rfl, rfl⟩, fun f n => ⟨rfl, rfl⟩, ?_⟩, ⟨fun f b => rfl, ?_⟩⟩
  · intro f x h
    cases x with
    | vString s => exact absurd rfl (h s)
    | vInt n => rfl
    | vInt64 n => rfl
    | vFloat64 q => rfl
    | vFloat32 q => rfl
    | vBool b => rfl
    | vNil => rfl
    | vOther => rfl
  · intro f x h1 h2 h3
    cases x with
    | vInt n => exact absurd rfl (h1 n)
    | vInt64 n => exact absurd rfl (h2 n)
    | vFloat64 q => exact absurd rfl (h3 q)
    | vString s => rfl
    | vFloat32 q => rfl
    | vBool b => rfl
    | vNil => rfl
    | vOther => rfl
  · intro f x h1 h2 h3 h4
    cases x with
    | vFloat64 q => exact absurd rfl (h1 q)
    | vFloat32 q => exact absurd rfl (h2 q)
    | vInt n => exact absurd rfl (h3 n)
    | vInt64 n => exact absurd rfl (h4 n)
    | vString s => rfl
    | vBool b => rfl
    | vNil => rfl
    | vOther => rfl
  · intro f x h
    cases x with
    | vBool b => exact absurd rfl (h b)
    | vString s => rfl
    | vInt n => rfl
    | vInt64 n => rfl
    | vFloat64 q => rfl
    | vFloat32 q => rfl
    | vNil => rfl
    | vOther => rfl

/-- Concrete instance of claim C5: the string shim delegates on a string
and rejects the nil interface value without consulting the wrapped
validator; the int shim truncates the float64 value 7/2 to 3 before
delegating; the bool shim rejects an int. -/
theorem shim_semantics_witness :
    StringValidator (fun s => some (GoError.plain s)) (GoVal.vString "hi") =
        some (GoError.plain "hi")
    ∧ StringValidator (fun _ => none) GoVal.vNil =
        some (GoError.plain "must be a string")
    ∧ IntValidator (fun n => some (GoError.plain (toString n)))
        (GoVal.vFloat64 (7 / 2 : Rat)) =
        (fun (n : Int) => some (GoError.plain (toString n))) (goTrunc (7 / 2 : Rat))
    ∧ BoolValidator (fun _ => none) (GoVal.vInt 1) =
        some (GoError.plain "must be a boolean") := by
  refine ⟨?_, ?_, ?_, ?_⟩
  · exact shim_semantics.1.1 (fun s => some (GoError.plain s)) "hi"
  · exact shim_semantics.1.2 (fun _ => none) GoVal.vNil
      (fun s h => GoVal.noConfusion h)
  · exact shim_semantics.2.1.2.1 (fun n => some (GoError.plain (toString n)))
      (7 / 2 : Rat)
  · exact shim_semantics.2.2.2.2 (fun _ => none) (GoVal.vInt 1)
      (fun b h => GoVal.noConfusion h)

/-! ### Lemmas about the keyed-map validators -/

/-- A rule passes on a map: its key is either absent and optional, or
present with a value all the rule's validators accept. -/
def ruleOk {V : Type} (m : GoMap V) (r : MapKeyRule V) : Bool :=
  match mapLookup m r.key with
  | none => !r.required
  | some value => (runRuleValidators r.key value r.validators).isNone

/-- The first key of the map (in iteration order) not covered by any
rule key. -/
def firstUncovered {V : Type} (ruleKeys : List String) : GoMap V → Option String
  | [] => none
  | (k, _) :: rest =>
    if ruleKeys.contains k then firstUncovered ruleKeys rest else some k

theorem ruleOk_of_lookup_none {V : Type} (m : GoMap V) (r : MapKeyRule V)
    (hl : mapLookup m r.key = none) : ruleOk m r = !r.required := by
  unfold ruleOk
  rw [hl]

theorem ruleOk_of_lookup_some {V : Type} (m : GoMap V) (r : MapKeyRule V)
    (value : V) (hl : mapLookup m r.key = some value) :
    ruleOk m r = (runRuleValidators r.key value r.validators).isNone := by
  unfold ruleOk
  rw [hl]

theorem runMapRules_cons {V : Type} (m : GoMap V) (r : MapKeyRule V)
    (rest : List (MapKeyRule V)) :
    runMapRules m (r :: rest) =
      match mapLookup m r.key with
      | none =>
        if r.required then
          some (GoError.plain ("key " ++ goQuote r.key ++ " is required"))
        else runMapRules m rest
      | some value =>
        match runRuleValidators r.key value r.validators with
        | some err => some err
        | none => runMapRules m rest := rfl

theorem runMapRules_cons_ok {V : Type} (m : GoMap V) (r : MapKeyRule V)
    (rest : List (MapKeyRule V)) (h : ruleOk m r = true) :
    runMapRules m (r :: rest) = runMapRules m rest := by
  rw [runMapRules_cons]
  cases hl : mapLookup m r.key with
  | none =>
    rw [ruleOk_of_lookup_none m r hl, Bool.not_eq_true'] at h
    simp [h]
  | some value =>
    rw [ruleOk_of_lookup_some m r value hl] at h
    cases hrv : runRuleValidators r.key value r.validators with
    | none => simp [hrv]
    | some e => rw [hrv] at h; simp at h

theorem runMapRules_append_ok {V : Type} (m : GoMap V)
    (l1 l2 : List (MapKeyRule V)) (h : ∀ r ∈ l1, ruleOk m r = true) :
    runMapRules m (l1 ++ l2) = runMapRules m l2 := by
  induction l1 with
  | nil => rfl
  | cons r l1 ih =>
    rw [List.cons_append,
      runMapRules_cons_ok m r (l1 ++ l2) (h r (List.mem_cons_self r l1))]
    exact ih (fun r' hr' => h r' (List.mem_cons_of_mem r hr'))

theorem runMapRules_cons_not_ok {V : Type} (m : GoMap V) (r : MapKeyRule V)
    (rest : List (MapKeyRule V)) (h : ruleOk m r = false) :
    runMapRules m (r :: rest) ≠ none := by
  rw [runMapRules_cons]
  cases hl : mapLookup m r.key with
  | none =>
    rw [ruleOk_of_lookup_none m r hl, Bool.not_eq_false'] at h
    simp [h]
  | some value =>
    rw [ruleOk_of_lookup_some m r value hl] at h
    cases hrv : runRuleValidators r.key value r.validators with
    | none => rw [hrv] at h; simp at h
    | some e => simp [hrv]

theorem runMapRules_none_iff {V : Type} (m : GoMap V)
    (rules : List (MapKeyRule V)) :
    runMapRules m rules = none ↔ ∀ r ∈ rules, ruleOk m r = true := by
  induction rules with
  | nil => simp [runMapRules]
  | cons r rest ih =>
    by_cases h : ruleOk m r = true
    · rw [runMapRules_cons_ok m r rest h, ih]
      constructor
      · intro hall r' hr'
        rcases List.mem_cons.mp hr' with rfl | hr''
        · exact h
        · exact hall r' hr''
      · intro hall r' hr'
        exact hall r' (List.mem_cons_of_mem r hr')
    · rw [Bool.not_eq_true] at h
      constructor
      · intro hrun
        exact absurd hrun (runMapRules_cons_not_ok m r rest h)
      · intro hall
        have := hall r (List.mem_cons_self r rest)
        rw [this] at h
        exact Bool.noConfusion h

theorem runRuleValidators_first_fail {V : Type} (key : String) (value : V)
    (vl1 vl2 : List (Validator V)) (u : Validator V) (e : GoError)
    (h1 : ∀ w ∈ vl1, w value = none) (hu : u value = some e) :
    runRuleValidators key value (vl1 ++ u :: vl2) =
      some (GoError.wrapf ("key " ++ goQuote key ++ ": " ++ e.message) e) := by
  induction vl1 with
  | nil => simp [runRuleValidators, hu]
  | cons w vl1 ih =>
    have hw : w value = none := h1 w (List.mem_cons_self w vl1)
    simp only [List.cons_append, runRuleValidators, hw]
    exact ih (fun w' hw' => h1 w' (List.mem_cons_of_mem w hw'))

theorem scanExtraKeys_eq_firstUncovered {V : Type} (ruleKeys : List String)
    (m : GoMap V) :
    scanExtraKeys ruleKeys m = (firstUncovered ruleKeys m).map
      (fun k => GoError.plain ("key " ++ goQuote k ++ " not expected")) := by
  induction m with
  | nil => rfl
  | cons p rest ih =>
    obtain ⟨k, v⟩ := p
    simp only [scanExtraKeys, firstUncovered]
    by_cases hk : ruleKeys.contains k = true
    · simp only [if_pos hk]
      exact ih
    · simp only [if_neg hk]
      rfl

theorem firstUncovered_none_iff {V : Type} (ruleKeys : List String)
    (m : GoMap V) :
    firstUncovered ruleKeys m = none ↔
      ∀ p ∈ m, ruleKeys.contains p.1 = true := by
  induction m with
  | nil => simp [firstUncovered]
  | cons p rest ih =>
    obtain ⟨k, v⟩ := p
    simp only [firstUncovered]
    by_cases hk : ruleKeys.contains k
    · rw [if_pos hk, ih]
      constructor
      · intro h p' hp'
        rcases List.mem_cons.mp hp' with rfl | hp''
        · exact hk
        · exact h p' hp''
      · intro h p' hp'
        exact h p' (List.mem_cons_of_mem _ hp')
    · rw [if_neg hk]
      constructor
      · intro h; exact Option.noConfusion h
      · intro h
        exact absurd (h (k, v) (List.mem_cons_self _ rest)) hk

theorem firstUncovered_some {V : Type} (ruleKeys : List String) (m : GoMap V)
    (k : String) (h : firstUncovered ruleKeys m = some k) :
    k ∈ m.map Prod.fst ∧ ruleKeys.contains k = false := by
  induction m with
  | nil => exact Option.noConfusion h
  | cons p rest ih =>
    obtain ⟨k', v⟩ := p
    simp only [firstUncovered] at h
    by_cases hk : ruleKeys.contains k'
    · rw [if_pos hk] at h
      obtain ⟨hmem, hnc⟩ := ih h
      exact ⟨List.mem_cons_of_mem _ hmem, hnc⟩
    · rw [if_neg hk] at h
      cases h
      exact ⟨List.mem_cons_self _ _, by simpa using hk⟩

theorem runMapRules_required {V : Type} (m : GoMap V) (r : MapKeyRule V)
    (rest : List (MapKeyRule V)) (hl : mapLookup m r.key = none)
    (hreq : r.required = true) :
    runMapRules m (r :: rest) =
      some (GoError.plain ("key " ++ goQuote r.key ++ " is required")) := by
  rw [runMapRules_cons, hl, hreq]
  rfl

theorem runMapRules_present_fail {V : Type} (m : GoMap V) (r : MapKeyRule V)
    (rest : List (MapKeyRule V)) (value : V) (e : GoError)
    (hl : mapLookup m r.key = some value)
    (hrv : runRuleValidators r.key value r.validators = some e) :
    runMapRules m (r :: rest) = some e := by
  rw [runMapRules_cons, hl]
  show (match runRuleValidators r.key value r.validators with
    | some err => some err
    | none => runMapRules m rest) = some e
  rw [hrv]

theorem validateMapGo_eq {V : Type} (m : GoMap V) (allowExtra : Bool)
    (rules : List (MapKeyRule V)) :
    validateMapGo m allowExtra rules =
      match runMapRules m rules with
      | some err => some err
      | none =>
        if allowExtra then none
        else scanExtraKeys (rules.map MapKeyRule.key) m := rfl

theorem validateMapGo_of_rules_fail {V : Type} (m : GoMap V)
    (allowExtra : Bool) (rules : List (MapKeyRule V)) (e : GoError)
    (h : runMapRules m rules = some e) :
    validateMapGo m allowExtra rules = some e := by
  rw [validateMapGo_eq, h]

theorem validateMapGo_allowExtra {V : Type} (m : GoMap V)
    (rules : List (MapKeyRule V)) :
    validateMapGo m true rules = runMapRules m rules := by
  rw [validateMapGo_eq]
  cases h : runMapRules m rules <;> simp

/-- The keyed-map validation contract of claim C3, stated for a map
validator `F`: a required absent key fails immediately with the
"required" error naming the key, whatever rules follow and whether or
not extra keys are allowed; a present key's first failing validator is
returned wrapped with the key name, whatever follows; with extra keys
allowed the call passes iff every rule passes; with extra keys
disallowed it passes iff additionally every map key is covered by some
rule, and when the rules pass but an uncovered key exists the call fails
naming the first such key of the map. -/
def keyedMapSpecHolds {V : Type}
    (F : GoMap V → Bool → List (MapKeyRule V) → Option GoError) : Prop :=
  (∀ (m : GoMap V) (allowExtra : Bool) (l1 l2 : List (MapKeyRule V))
      (r : MapKeyRule V),
      (∀ r' ∈ l1, ruleOk m r' = true) → mapLookup m r.key = none →
      r.required = true →
      F m allowExtra (l1 ++ r :: l2) =
        some (GoError.plain ("key " ++ goQuote r.key ++ " is required")))
  ∧ (∀ (m : GoMap V) (allowExtra : Bool) (l1 l2 : List (MapKeyRule V))
      (r : MapKeyRule V) (value : V) (vl1 vl2 : List (Validator V))
      (u : Validator V) (e : GoError),
      (∀ r' ∈ l1, ruleOk m r' = true) → mapLookup m r.key = some value →
      r.validators = vl1 ++ u :: vl2 → (∀ w ∈ vl1, w value = none) →
      u value = some e →
      F m allowExtra (l1 ++ r :: l2) =
        some (GoError.wrapf ("key " ++ goQuote r.key ++ ": " ++ e.message) e))
  ∧ (∀ (m : GoMap V) (rules : List (MapKeyRule V)),
      (F m true rules = none ↔ ∀ r ∈ rules, ruleOk m r = true))
  ∧ (∀ (m : GoMap V) (rules : List (MapKeyRule V)),
      (F m false rules = none ↔
        (∀ r ∈ rules, ruleOk m r = true)
        ∧ ∀ p ∈ m, (rules.map MapKeyRule.key).contains p.1 = true))
  ∧ (∀ (m : GoMap V) (rules : List (MapKeyRule V)) (k : String),
      (∀ r ∈ rules, ruleOk m r = true) →
      firstUncovered (rules.map MapKeyRule.key) m = some k →
      F m false rules =
          some (GoError.plain ("key " ++ goQuote k ++ " not expected"))
        ∧ k ∈ m.map Prod.fst
        ∧ (rules.map MapKeyRule.key).contains k = false)

theorem validateMapGo_spec {V : Type} :
    keyedMapSpecHolds (validateMapGo (V := V)) := by
  refine ⟨?_, ?_, ?_, ?_, ?_⟩
  · intro m allowExtra l1 l2 r h1 hl hreq
    exact validateMapGo_of_rules_fail m allowExtra _ _
      (by rw [runMapRules_append_ok m l1 (r :: l2) h1,
        runMapRules_required m r l2 hl hreq])
  · intro m allowExtra l1 l2 r value vl1 vl2 u e h1 hl hvs hpass hu
    refine validateMapGo_of_rules_fail m allowExtra _ _ ?_
    rw [runMapRules_append_ok m l1 (r :: l2) h1]
    refine runMapRules_present_fail m r l2 value _ hl ?_
    rw [hvs]
    exact runRuleValidators_first_fail r.key value vl1 vl2 u e hpass hu
  · intro m rules
    rw [validateMapGo_allowExtra]
    exact runMapRules_none_iff m rules
  · intro m rules
    rw [validateMapGo_eq]
    cases hrun : runMapRules m rules with
    | some e =>
      simp only []
      constructor
      · intro h; exact Option.noConfusion h
      · intro h
        have := (runMapRules_none_iff m rules).mpr h.1
        rw [this] at hrun
        exact Option.noConfusion hrun
    | none =>
      simp only [Bool.false_eq_true, if_false,
        scanExtraKeys_eq_firstUncovered]
      constructor
      · intro h
        refine ⟨(runMapRules_none_iff m rules).mp hrun, ?_⟩
        rw [← firstUncovered_none_iff (rules.map MapKeyRule.key) m]
        cases hfu : firstUncovered (rules.map MapKeyRule.key) m with
        | none => rfl
        | some k => rw [hfu] at h; exact Option.noConfusion h
      · intro h
        rw [(firstUncovered_none_iff (rules.map MapKeyRule.key) m).mpr h.2]
        rfl
  · intro m rules k hok hfu
    refine ⟨?_, (firstUncovered_some _ m k hfu).1, (firstUncovered_some _ m k hfu).2⟩
    rw [validateMapGo_eq, (runMapRules_none_iff m rules).mpr hok]
    simp only [Bool.false_eq_true, if_false, scanExtraKeys_eq_firstUncovered, hfu]
    rfl

/-- Claim C3: both keyed-map validators, `ValidateStringMap` and
`ValidateAnyMap`, satisfy the keyed-map contract `keyedMapSpecHolds`:
a required absent key fails immediately with a "required" error naming
the key (short-circuit across rules, no aggregation); a present key's
validators run sequentially and the first failure comes back wrapped
with the key name as context; and only once every rule has passed, with
extra keys disallowed, validation fails naming a map key covered by no
rule, when one exists. -/
theorem map_validators_semantics :
    keyedMapSpecHolds ValidateStringMap ∧ keyedMapSpecHolds ValidateAnyMap :=
  ⟨validateMapGo_spec, validateMapGo_spec⟩

/-- Concrete instance of claim C3: a missing required "name" key fails
with the "required" error even though later rules would also fail; a map
containing only "name" passes rules `{name: required, age: optional}`
with extra keys disallowed; and an uncovered "extra" key in a dynamic
map fails naming that key. -/
theorem map_validators_semantics_witness :
    ValidateStringMap [("age", "30")] false
        ([] ++ MapKey "name" true [] :: [MapKey "city" true []]) =
      some (GoError.plain ("key " ++ goQuote "name" ++ " is required"))
    ∧ ValidateStringMap [("name", "x")] false
        [MapKey "name" true [], MapKey "age" false []] = none
    ∧ ValidateAnyMap [("name", GoVal.vString "x"), ("extra", GoVal.vBool true)]
        false [MapKey "name" false []] =
      some (GoError.plain ("key " ++ goQuote "extra" ++ " not expected")) := by
  refine ⟨?_, ?_, ?_⟩
  · exact map_validators_semantics.1.1 [("age", "30")] false []
      [MapKey "city" true []] (MapKey "name" true [])
      (by intro r' hr'; exact absurd hr' (List.not_mem_nil r')) rfl rfl
  · exact (map_validators_semantics.1.2.2.2.1 [("name", "x")]
      [MapKey "name" true [], MapKey "age" false []]).mpr
      (by
        constructor
        · intro r hr
          rcases List.mem_cons.mp hr with rfl | hr'
          · rfl
          · rw [List.mem_singleton] at hr'; subst hr'; rfl
        · intro p hp
          rw [List.mem_singleton] at hp; subst hp; rfl)
  · exact (map_validators_semantics.2.2.2.2.2
      [("name", GoVal.vString "x"), ("extra", GoVal.vBool true)]
      [MapKey "name" false []] "extra"
      (by intro r hr; rw [List.mem_singleton] at hr; subst hr; rfl) rfl).1

/-! ### Which combinator boundaries normalize errors -/

theorem wrapError_some_isValidation (e : GoError) :
    IsValidationError (WrapError (some e)) = true := by
  by_cases h : e.isValidation = true
  · simp [WrapError, h, IsValidationError]
  · simp only [Bool.not_eq_true] at h
    simp [WrapError, h, IsValidationError]

/-- Counterexample to claim C7 as stated: the "required" error of
`ValidateStringMap` is a plain `fmt` error, not a validation error, and
the per-key wrapping of a foreign validator error also fails the
`IsValidationError` test. -/
theorem map_wrapping_not_validation :
    IsValidationError (ValidateStringMap [] true [MapKey "name" true []]) = false
    ∧ ValidateStringMap [] true [MapKey "name" true []] =
        some (GoError.plain ("key " ++ goQuote "name" ++ " is required"))
    ∧ ValidateStringMap [("name", "x")] true
          [MapKey "name" true [fun _ => some (GoError.plain "boom")]] =
        some (GoError.wrapf
          ("key " ++ goQuote "name" ++ ": " ++ (GoError.plain "boom").message)
          (GoError.plain "boom"))
    ∧ IsValidationError (ValidateStringMap [("name", "x")] true
          [MapKey "name" true [fun _ => some (GoError.plain "boom")]]) = false := by
  have h1 : ValidateStringMap [] true [MapKey "name" true []] =
      some (GoError.plain ("key " ++ goQuote "name" ++ " is required")) := rfl
  have h2 : ValidateStringMap [("name", "x")] true
        [MapKey "name" true [fun _ => some (GoError.plain "boom")]] =
      some (GoError.wrapf
        ("key " ++ goQuote "name" ++ ": " ++ (GoError.plain "boom").message)
        (GoError.plain "boom")) := rfl
  refine ⟨?_, h1, h2, ?_⟩
  · rw [h1]
    simp [IsValidationError]
  · rw [h2]
    simp [IsValidationError]

/-- Claim C7 as amended: `Or`'s aggregated error (two or more validators
all failing) always tests true under `IsValidationError`, even when every
underlying failure is foreign, because `Or` passes it through
`WrapError`; the map validators' per-key wrapping, by contrast, is plain
`fmt` wrapping — the wrapped error is a validation error exactly when the
underlying validator's error already is one, and the "required" /
"not expected" errors never are. -/
theorem error_normalization_boundaries :
    (∀ {T : Type} (x : T) (vs : List (Validator T)) (es : List GoError),
        List.Forall₂ (fun (v : Validator T) (e : GoError) => v x = some e) vs es →
        2 ≤ vs.length → IsValidationError (Or vs x) = true)
    ∧ (∀ (key : String) (e : GoError),
        (GoError.wrapf ("key " ++ goQuote key ++ ": " ++ e.message) e).isValidation
          = e.isValidation)
    ∧ ∀ key : String,
        (GoError.plain ("key " ++ goQuote key ++ " is required")).isValidation = false
        ∧ (GoError.plain ("key " ++ goQuote key ++ " not expected")).isValidation
            = false := by
  refine ⟨?_, fun key e => by simp, fun key => ⟨by simp, by simp⟩⟩
  intro T x vs es hall hlen
  have hlen' : 2 ≤ es.length := by
    rw [← List.Forall₂.length_eq hall]; exact hlen
  obtain ⟨a, b, t, rfl⟩ : ∃ a b t, es = a :: b :: t := by
    cases es with
    | nil => simp at hlen'
    | cons a es' =>
      cases es' with
      | nil => simp at hlen'
      | cons b t => exact ⟨a, b, t, rfl⟩
  have hrun : Or vs x = orFinish (a :: b :: t) := by
    have h := orGo_all_fail x hall []
    simpa [Or] using h
  rw [hrun]
  have hfin : orFinish (a :: b :: t) =
      WrapError (some (fmtErrorfW "all validators failed: "
        (errorsJoin (a :: b :: t)))) := by
    simp [orFinish]
  rw [hfin]
  exact wrapError_some_isValidation _

/-- Concrete instance of the amended claim C7: two foreign failures under
`Or` still produce a validation error; the per-key wrap of the foreign
error "boom" keeps its non-validation status. -/
theorem error_normalization_boundaries_witness :
    IsValidationError (Or [fun _ => some (GoError.plain "a"),
        fun _ => some (GoError.plain "b")] (0 : Nat)) = true
    ∧ (GoError.wrapf
        ("key " ++ goQuote "name" ++ ": " ++ (GoError.plain "boom").message)
        (GoError.plain "boom")).isValidation = (GoError.plain "boom").isValidation
    ∧ (GoError.plain ("key " ++ goQuote "name" ++ " is required")).isValidation
        = false := by
  refine ⟨?_, ?_, ?_⟩
  · exact error_normalization_boundaries.1 (0 : Nat) _
      [GoError.plain "a", GoError.plain "b"]
      (List.Forall₂.cons rfl (List.Forall₂.cons rfl List.Forall₂.nil)) (by simp)
  · exact error_normalization_boundaries.2.1 "name" (GoError.plain "boom")
  · exact (error_normalization_boundaries.2.2 "name").1

end Protego

